import Mathlib

/-!
Shallow embedding of the lego ACME client: `acme/client.go`, `acme/jws.go`
and the order service (`api` package).  Pure data is embedded directly;
HTTP traffic is modelled by passing the response (or a response oracle)
explicitly; process-fatal logging (`log.Fatalf`/`Fatalln`) and Go panics
are modelled as distinguished error outcomes.
-/

namespace Acme

/-- An HTTP response as consumed by the client: status code and headers.
Go's `http.Header` is a map from header name to a list of values; we embed
it as an association list. The body is modelled per call site by passing
the decoder's outcome explicitly. -/
structure Response where
  statusCode : Nat
  headers : List (String × List String)
deriving Repr, DecidableEq

/-- Go `http.Header.Get`: the first value of the named header, or `""` when
the header is absent or has no values. -/
def headerGet (headers : List (String × List String)) (key : String) : String :=
  match headers.find? (fun p => p.1 == key) with
  | some (_, v :: _) => v
  | _ => ""

/-- Go `resp.Header[key]`: the full value list for the header, `[]` (nil
slice) when absent. -/
def headerValues (headers : List (String × List String)) (key : String) : List String :=
  match headers.find? (fun p => p.1 == key) with
  | some (_, vs) => vs
  | none => []

/-! ## Nonce pool (`acme/jws.go`)

`jws.nonces` is a `[]string`; `append` adds at the end, `Nonce` draws from
the end. The pool is threaded explicitly. -/

/-- `jws.Nonce` (jws.go:89-97): draw the last nonce from the pool; on an
empty pool return an error and leave the pool unchanged.  Returns the
result together with the new pool. -/
def Nonce (nonces : List String) : Except String String × List String :=
  match nonces.getLast? with
  | none => (.error "No nonce available.", nonces)
  | some n => (.ok n, nonces.dropLast)

/-- `jws.getNonceFromResponse` (jws.go:70-78): read the `Replay-Nonce`
header (`Header.Get` yields `""` when absent); when non-empty, append it to
the pool; otherwise error and leave the pool unchanged.  The HTTP status
code of the response is never consulted. -/
def getNonceFromResponse (nonces : List String) (resp : Response) :
    Except String Unit × List String :=
  let nonce := headerGet resp.headers "Replay-Nonce"
  if nonce = "" then
    (.error "Server did not respond with a proper nonce header.", nonces)
  else
    (.ok (), nonces ++ [nonce])

/-! ## Client construction and signing (`acme/client.go:49-62`, `acme/jws.go:55-68`) -/

/-- Abstraction of the `*rsa.PrivateKey` account key: `material` stands for
the key bytes that signatures depend on, `valid` for whether
`key.Validate()` succeeds (`crypto/rsa` is external to the repository). -/
structure AccountKey where
  material : String
  valid : Bool
deriving Repr, DecidableEq

/-- Observable non-response effects of client operations, recorded so that
theorems can state when key validation and network traffic happen. -/
inductive ClientEvent
  | validateKey
  | networkRequest (url : String)
deriving Repr, DecidableEq

/-- The client as returned by `NewClient`.  Note the source builds a local
solvers map in `NewClient` but never stores it on the returned client
(client.go:57-61); `Solvers` is therefore populated by the caller. -/
structure Client where
  regURL : String
  key : AccountKey
deriving Repr, DecidableEq

/-- `NewClient` (client.go:49-62): validates the account private key first;
a failing validation hits `logger().Fatalf`, modelled as a fatal error
outcome.  No network request is made.  The event trace records the effects
in order. -/
def NewClient (caURL : String) (usr : AccountKey) :
    Except String Client × List ClientEvent :=
  if usr.valid then
    (.ok { regURL := caURL, key := usr }, [.validateKey])
  else
    (.error "Could not validate the private account key", [.validateKey])

/-- `jws.signContent` (jws.go:55-68) together with the single nonce draw the
jose signer performs through `signer.SetNonceSource(j)`: signing consumes
exactly one nonce from the pool and produces a signature over the content;
it contains no call to `Validate` and no network request.  The jose library
itself is external; its signature is abstracted by a tag built from the key
material, the nonce and the content. -/
def signContent (privKey : AccountKey) (nonces : List String) (content : String) :
    (Except String String × List String) × List ClientEvent :=
  match Nonce nonces with
  | (.error e, ns) => ((.error e, ns), [])
  | (.ok n, ns) =>
      ((.ok ("RS256[" ++ privKey.material ++ "," ++ n ++ "](" ++ content ++ ")"), ns), [])

/-! ## Link header parsing (`acme/client.go:249-266`)

`parseLinks` strips `[<>]` from each header value, splits it on `";"`, runs
the regexp `(.+) *= *"(.+)"` on the second segment and, on a match, binds
`matches[2]` (the second capture) to `parts[0]` in the link map. -/

/-- Go `strings.Split` on a single-character separator: splitting the empty
string yields `[""]`, and separators at either end produce empty
segments. -/
def splitOnChar (sep : Char) : List Char → List (List Char)
  | [] => [[]]
  | c :: rest =>
      if c = sep then [] :: splitOnChar sep rest
      else
        match splitOnChar sep rest with
        | h :: t => (c :: h) :: t
        | [] => [[c]]

/-- Maximal munch of the regexp fragment ` *= *"`: skip spaces, expect `=`,
skip spaces, expect `"`, return the remainder.  Deterministic because
neither `=` nor `"` is a space, so greedy `*` cannot be backtracked into a
different successful parse. -/
def eatEqQuote (s : List Char) : Option (List Char) :=
  match s.dropWhile (· = ' ') with
  | '=' :: rest =>
      match rest.dropWhile (· = ' ') with
      | '"' :: rest2 => some rest2
      | _ => none
  | _ => none

/-- Greedy match of the closing `(.+)"` fragment: the longest non-empty
newline-free prefix of `s` that is immediately followed by `"` (`.` does
not match a newline in Go regexp). -/
def gGroup2 (s : List Char) : Option (List Char) :=
  ((List.range s.length).reverse.find? (fun i =>
      s.get? i == some '"' && decide (1 ≤ i) &&
        (s.take i).all (fun c => c != '\n'))).map (fun i => s.take i)

/-- Match of `(.+) *= *"(.+)"` anchored at the start of `s`: the first
capture group is greedy (longest candidate first), matching
leftmost-first regexp semantics. -/
def slverFrom (s : List Char) : Option (List Char × List Char) :=
  ((List.range s.length).reverse.filterMap (fun j =>
      let g1 := s.take (j + 1)
      if g1.all (fun c => c != '\n') then
        match eatEqQuote (s.drop (j + 1)) with
        | some rest => (gGroup2 rest).map (fun g2 => (g1, g2))
        | none => none
      else none)).head?

/-- `slver.FindStringSubmatch` (client.go:251, 259): the leftmost match of
`(.+) *= *"(.+)"` in the string, returned as its two capture groups
(`matches[1]`, `matches[2]`); `none` when there is no match
(`len(matches) == 0`). -/
def slverFind : List Char → Option (List Char × List Char)
  | [] => none
  | c :: rest =>
      match slverFrom (c :: rest) with
      | some m => some m
      | none => slverFind rest

/-- Go map assignment `m[k] = v` on a string-keyed map embedded as an
association list: replace the binding of `k` when present, otherwise add
it. -/
def mapInsert (m : List (String × String)) (k v : String) : List (String × String) :=
  if m.any (fun p => p.1 == k) then
    m.map (fun p => if p.1 == k then (k, v) else p)
  else m ++ [(k, v)]

/-- Go map read `m[k]` on a string-valued map: the bound value, or the zero
value `""` when `k` is unbound. -/
def mapGet (m : List (String × String)) (k : String) : String :=
  match m.find? (fun p => p.1 == k) with
  | some p => p.2
  | none => ""

/-- The tail of the `parseLinks` loop body (client.go:259-262) acting on the
`;`-split segments: run the regexp on the second segment.  `none` embeds
the Go panic on `parts[1]` when the split has fewer than two segments
(index out of range); `some none` is a non-matching regexp (the entry is
skipped); `some (some (rel, url))` records the binding
`linkMap[matches[2]] = parts[0]`. -/
def parseEntryParts (parts : List (List Char)) : Option (Option (String × String)) :=
  match parts[1]? with
  | none => none
  | some p1 =>
      match slverFind p1 with
      | some (_, g2) => some (some (String.mk g2, String.mk parts.headI))
      | none => some none

/-- One iteration of the `parseLinks` loop body (client.go:254-263) on a
single header value: strip every `<` and `>`, split on `;`, then
`parseEntryParts`. -/
def parseLinkEntry (link : String) : Option (Option (String × String)) :=
  parseEntryParts (splitOnChar ';' (link.data.filter (fun c => c != '<' && c != '>')))

/-- The `parseLinks` loop (client.go:254-263) with its accumulating link
map; `none` propagates the panic of an out-of-range `parts[1]`. -/
def parseLinksGo (m : List (String × String)) :
    List String → Option (List (String × String))
  | [] => some m
  | link :: rest =>
      match parseLinkEntry link with
      | none => none
      | some none => parseLinksGo m rest
      | some (some (rel, url)) => parseLinksGo (mapInsert m rel url) rest

/-- `parseLinks` (client.go:249-266). -/
def parseLinks (links : List String) : Option (List (String × String)) :=
  parseLinksGo [] links

/-! ## Account registration (`acme/client.go:65-104`) -/

/-- Server account object decoded from the registration response body.  The
struct is declared outside the given sources; fields follow its use sites
(client.go:82-89, 109-110). -/
structure Registration where
  agreement : String := ""
deriving Repr, DecidableEq

/-- The client-side registration resource assembled by `Register`
(client.go:89-103). -/
structure RegistrationResource where
  body : Registration
  uri : String := ""
  tosURL : String := ""
  newAuthzURL : String := ""
deriving Repr, DecidableEq

/-- `Client.Register` (client.go:65-104), with the network round trip and
the response-body decode passed in as outcomes: `postResult` stands for
`c.jws.post(c.regURL, jsonBytes)` (the marshal of the contact message
cannot fail) and `decoded` for decoding the body into a `Registration`.
The outer `Option` propagates the possible Go panic inside `parseLinks`.
An HTTP 409 (`http.StatusConflict`) is answered with an error before the
body is examined. -/
def Register (postResult : Except String Response)
    (decoded : Except String Registration) :
    Option (Except String RegistrationResource) :=
  match postResult with
  | .error e => some (.error e)
  | .ok resp =>
      if resp.statusCode = 409 then
        some (.error "This account is already registered with this CA.")
      else
        match decoded with
        | .error e => some (.error e)
        | .ok serverReg =>
            match parseLinks (headerValues resp.headers "Link") with
            | none => none
            | some links =>
                let reg0 : RegistrationResource :=
                  { body := serverReg, uri := headerGet resp.headers "Location" }
                let reg1 :=
                  if mapGet links "terms-of-service" ≠ "" then
                    { reg0 with tosURL := mapGet links "terms-of-service" }
                  else reg0
                if mapGet links "next" ≠ "" then
                  some (.ok { reg1 with newAuthzURL := mapGet links "next" })
                else
                  some (.error "The server did not return enough information to proceed...")

/-! ## Challenge selection (`acme/client.go:144-179`) -/

/-- The `identifier` object (client.go:187). -/
structure Identifier where
  type : String
  value : String
deriving Repr, DecidableEq

/-- The `challenge` object; only its `Type` is consulted by the client
(client.go:168). -/
structure Challenge where
  type : String
deriving Repr, DecidableEq

/-- The `authorization` object, fields per its use sites
(client.go:165-168, 187, 209-216). -/
structure Authorization where
  identifier : Identifier := ⟨"", ""⟩
  challenges : List Challenge := []
  combinations : List (List Nat) := []
deriving Repr, DecidableEq

/-- The `Client.Solvers` map, keyed by challenge type; the solver value is
abstracted by a label (its `Solve` method only acts on the outside
world). -/
abbrev Solvers := String → Option String

/-- The inner loop of `chooseSolvers` over one combination
(client.go:166-171): for each position `i` of the combination the source
reads `auth.Challenges[i].Type` — the loop index `i`, not the listed
challenge index `combination[i]`.  `none` embeds the Go panic when
`auth.Challenges[i]` is out of range; a missing solver just contributes
nothing to the map. -/
def combinationSolvers (registered : Solvers) (challenges : List Challenge)
    (combination : List Nat) : Option (List (Nat × String)) :=
  (List.range combination.length).foldlM (fun acc i =>
    match challenges[i]? with
    | none => none
    | some ch =>
        match registered ch.type with
        | some solver => some (acc ++ [(i, solver)])
        | none => some acc) []

/-- The combination loop of `chooseSolvers` (client.go:165-177): accept the
first combination whose solver map has one entry per combination position;
`some none` is the function's `nil` result (no combination accepted). -/
def chooseSolversLoop (registered : Solvers) (challenges : List Challenge) :
    List (List Nat) → Option (Option (List (Nat × String)))
  | [] => some none
  | combination :: rest =>
      match combinationSolvers registered challenges combination with
      | none => none
      | some solvers =>
          if solvers.length = combination.length then some (some solvers)
          else chooseSolversLoop registered challenges rest

/-- `chooseSolvers` (client.go:164-179). -/
def chooseSolvers (registered : Solvers) (auth : Authorization) :
    Option (Option (List (Nat × String))) :=
  chooseSolversLoop registered auth.challenges auth.combinations

/-- The `authorizationResource` object (client.go:216). -/
structure AuthorizationResource where
  body : Authorization
  newCertURL : String := ""
  domain : String := ""
deriving Repr, DecidableEq

/-- `solveChallenges` (client.go:146-160): per authorisation choose solvers;
a `nil` result fails immediately with the per-domain error; otherwise the
solvers run (`Solve` only acts on the outside world) and the loop
continues.  The outer `Option` propagates a Go panic out of
`chooseSolvers`. -/
def solveChallenges (registered : Solvers) :
    List AuthorizationResource → Option (Except String Unit)
  | [] => some (.ok ())
  | authz :: rest =>
      match chooseSolvers registered authz.body with
      | none => none
      | some none =>
          some (.error ("Could not determine solvers for " ++ authz.domain))
      | some (some _) => solveChallenges registered rest

/-! ## Fetching challenges, obtaining certificates (`acme/client.go:137-142, 182-235`) -/

/-- A message sent by a per-domain goroutine on `errc` or `resc`
(client.go:189-216). -/
inductive Msg
  | err (e : String)
  | res (r : AuthorizationResource)
deriving Repr, DecidableEq

/-- The observable behaviour of one per-domain goroutine: the channel
messages it sends, in send order, and `some` reason when it then reaches a
process-fatal call (`logger().Fatalln`, client.go:206, or a Go panic
inside `parseLinks`).  The fatal sits after the messages because every
fatal call in the goroutine body comes after its earlier sends; a task
whose sends are never all received never reaches a fatal placed behind
them. -/
structure TaskRun where
  msgs : List Msg
  fatal : Option String := none
deriving Repr, DecidableEq

/-- The per-domain goroutine body of `getChallenges` (client.go:186-218).
`post` stands for `c.jws.post(newAuthzURL, jsonBytes)` for the given domain
(marshalling the authorization cannot fail); `decode` for decoding that
domain's response body into an `authorization`.  The source has no `return`
after the non-201 send (client.go:199-202) nor after the decode-error send
(client.go:212-214), so those paths send two messages, a failed decode
still sending the zero-value authorization on `resc`. -/
def getChallengesTask (post : String → Except String Response)
    (decode : String → Except String Authorization) (domain : String) : TaskRun :=
  match post domain with
  | .error e => { msgs := [.err e] }
  | .ok resp =>
      let pre : List Msg :=
        if resp.statusCode ≠ 201 then
          [.err ("Getting challenges for " ++ domain ++ " failed. Got status " ++
            toString resp.statusCode ++ " but expected 201")]
        else []
      match parseLinks (headerValues resp.headers "Link") with
      | none => { msgs := pre, fatal := some "panic: index out of range in parseLinks" }
      | some links =>
          if mapGet links "next" = "" then
            { msgs := pre,
              fatal := some "The server did not provide enough information to proceed." }
          else
            match decode domain with
            | .error e =>
                { msgs := pre ++ [.err e,
                    .res { body := {}, newCertURL := mapGet links "next", domain := domain }] }
            | .ok authz =>
                { msgs := pre ++
                    [.res { body := authz, newCertURL := mapGet links "next", domain := domain }] }

/-- The resources among a list of received messages, in receive order (the
fan-in loop of client.go:221-229 appends resources and merely logs
errors). -/
def collectMsgs : List Msg → List AuthorizationResource
  | [] => []
  | .err _ :: rest => collectMsgs rest
  | .res r :: rest => r :: collectMsgs rest

/-- The per-domain goroutine runs spawned by `getChallenges`
(client.go:185-219), in domain order. -/
def taskRuns (post : String → Except String Response)
    (decode : String → Except String Authorization) (domains : List String) :
    List TaskRun :=
  domains.map (getChallengesTask post decode)

/-- `getChallenges` (client.go:182-235): one goroutine per domain and a
fan-in loop that performs exactly `len(domains)` receives (client.go:222),
appending received resources and logging — dropping — received errors
(client.go:224-228), then closes both channels (client.go:231-232).  The
process outlives the fan-in only when no task reaches a fatal call and the
tasks send exactly `len(domains)` messages in total: a task that reaches
`Fatalln` or panics kills the process, and when the tasks send more
messages than the loop receives, some sender is still blocked when the
channels are closed and dies of a send-on-closed-channel panic.  (Both
deaths race against the caller's further progress; the embedding maps
every run that some schedule kills to `none`.)  In a surviving run every
sent message is received under every schedule, so the collected set is
schedule-independent; the embedding lists it in domain order, while the Go
slice order depends on the interleaving. -/
def getChallenges (post : String → Except String Response)
    (decode : String → Except String Authorization) (domains : List String) :
    Option (List AuthorizationResource) :=
  if (∀ t ∈ taskRuns post decode domains, t.fatal = none) ∧
      ((taskRuns post decode domains).map (fun t => t.msgs.length)).sum =
        domains.length then
    some (collectMsgs ((taskRuns post decode domains).flatMap TaskRun.msgs))
  else none

/-- `ObtainCertificates` (client.go:137-142): fetch the challenges, run
`solveChallenges`, and return `nil` — the source discards the result of
`solveChallenges` (client.go:140) and always returns `nil` when the process
survives. -/
def ObtainCertificates (registered : Solvers)
    (post : String → Except String Response)
    (decode : String → Except String Authorization) (domains : List String) :
    Option (Except String Unit) :=
  match getChallenges post decode domains with
  | none => none
  | some challenges =>
      match solveChallenges registered challenges with
      | none => none
      | some _ => some (.ok ())

/-! ## Order service (`api` package: `OrderService.New`, `UpdateForCSR`) -/

/-- `acme.Order`, fields per the order service's use sites; `error` embeds
`order.Error` (an `*acme.Problem` holding the server's problem detail),
`none` being the nil pointer. -/
structure Order where
  identifiers : List Identifier := []
  status : String := ""
  error : Option String := none
deriving Repr, DecidableEq

/-- `acme.ExtendedOrder`: an order plus its resource URL. -/
structure ExtendedOrder where
  order : Order
  location : String := ""
deriving Repr, DecidableEq

/-- The order request `OrderService.New` builds (part_000:14-19): one `dns`
identifier per input domain, verbatim and in input order. -/
def newOrderRequest (domains : List String) : Order :=
  { identifiers := domains.map (fun domain => { type := "dns", value := domain }) }

/-- `OrderService.New` (part_000:13-31): post the order request to the
newOrder URL; on success pair the decoded order with the response's
`Location` header.  `post` stands for `o.core.post(...)`, which returns the
response and the order decoded from its body. -/
def OrderService.New (post : Order → Except String (Response × Order))
    (domains : List String) : Except String ExtendedOrder :=
  match post (newOrderRequest domains) with
  | .error e => .error e
  | .ok (resp, order) =>
      .ok { order := order, location := headerGet resp.headers "Location" }

/-- `acme.CSRMessage` (part_000:50-52). -/
structure CSRMessage where
  csr : String
deriving Repr, DecidableEq

/-- The base64url alphabet (RFC 4648 §5) used by Go's
`base64.RawURLEncoding`. -/
def b64URLAlphabet : List Char :=
  "ABCDEFGHIJKLMNOPQRSTUVWXYZabcdefghijklmnopqrstuvwxyz0123456789-_".toList

/-- The alphabet character for a 6-bit value. -/
def b64Char (n : Nat) : Char := (b64URLAlphabet[n % 64]?).getD 'A'

/-- Go `base64.RawURLEncoding.EncodeToString` over a byte list: unpadded
base64 with the URL-safe alphabet. -/
def base64RawURL : List Nat → List Char
  | [] => []
  | [a] => [b64Char (a / 4), b64Char (a % 4 * 16)]
  | [a, b] => [b64Char (a / 4), b64Char (a % 4 * 16 + b / 16), b64Char (b % 16 * 4)]
  | a :: b :: c :: rest =>
      b64Char (a / 4) :: b64Char (a % 4 * 16 + b / 16) ::
        b64Char (b % 16 * 4 + c / 64) :: b64Char (c % 64) :: base64RawURL rest

/-- The errors `UpdateForCSR` can surface: the post's error, or the order's
server problem (`order.Error`, possibly the nil pointer) when the order
status is `invalid`. -/
inductive OrderUpdateError
  | postErr (e : String)
  | problem (p : Option String)
deriving Repr, DecidableEq

/-- `OrderService.UpdateForCSR` (part_000:49-65): post the base64url-encoded
CSR to the order URL once; when the decoded order's status is `invalid`,
return `order.Error` and no order value; otherwise return the order as-is,
whatever its status. -/
def OrderService.UpdateForCSR (post : String → CSRMessage → Except String Order)
    (orderURL : String) (csr : List Nat) : Except OrderUpdateError ExtendedOrder :=
  match post orderURL { csr := String.mk (base64RawURL csr) } with
  | .error e => .error (.postErr e)
  | .ok order =>
      if order.status = "invalid" then .error (.problem order.error)
      else .ok { order := order }

/-- Concrete registered-solver map used by the evaluation theorems: a
solver exists only for the challenge type `simpleHttp`. -/
def httpOnlySolvers : Solvers := fun t =>
  if t = "simpleHttp" then some "http01" else none

/-- Concrete registered-solver map with a solver only for the type
`dns-01`. -/
def dnsOnlySolvers : Solvers := fun t =>
  if t = "dns-01" then some "dns01" else none

/-- Concrete authorization with three challenges of distinct types. -/
def threeChallengeAuth (combos : List (List Nat)) : Authorization :=
  { challenges := [⟨"simpleHttp"⟩, ⟨"dvsni"⟩, ⟨"dns-01"⟩], combinations := combos }

/-- Concrete response oracle for the certificate-obtention run: domain
`a.example.com` answers 201 with a next link, `b.example.com` fails at the
transport. -/
def abPost : String → Except String Response := fun domain =>
  if domain = "a.example.com" then
    .ok ⟨201, [("Link", ["<nexturl>;rel=\"next\""])]⟩
  else .error "connection refused"

/-- Concrete body decoder for the certificate-obtention run: every body
decodes to the empty authorization. -/
def abDecode : String → Except String Authorization := fun _ => .ok {}

/-- The resource `a.example.com`'s task produces under `abPost`/`abDecode`. -/
def aResource : AuthorizationResource :=
  { body := {}, newCertURL := "nexturl", domain := "a.example.com" }

end Acme

namespace Acme

/-! ## Theorems: nonce pool -/

/-- C2: a successful sign draws exactly one nonce, shrinking the pool by
exactly one; observing a response whose `Replay-Nonce` header is present
(non-empty under `Header.Get`) grows the pool by exactly one, regardless of
the response's HTTP status; a response without that header leaves the pool
unchanged. -/
theorem sign_shrinks_and_harvest_grows_pool (privKey : AccountKey)
    (nonces : List String) (content : String) (resp : Response) :
    (∀ s, (signContent privKey nonces content).1.1 = .ok s →
        ((signContent privKey nonces content).1.2).length + 1 = nonces.length)
    ∧ (headerGet resp.headers "Replay-Nonce" ≠ "" →
        ((getNonceFromResponse nonces resp).2).length = nonces.length + 1)
    ∧ (headerGet resp.headers "Replay-Nonce" = "" →
        (getNonceFromResponse nonces resp).2 = nonces) := by
  refine ⟨?_, ?_, ?_⟩
  · intro s hs
    unfold signContent at hs ⊢
    cases hg : nonces.getLast? with
    | none => simp [Nonce, hg] at hs
    | some n =>
        have hne : nonces ≠ [] := by
          intro h; subst h; simp at hg
        simp [Nonce, hg]
        cases nonces with
        | nil => exact absurd rfl hne
        | cons a l => simp [List.length_dropLast]
  · intro h
    simp [getNonceFromResponse, h]
  · intro h
    simp [getNonceFromResponse, h]

/-- Witness for `sign_shrinks_and_harvest_grows_pool` at a concrete pool and
response. -/
theorem sign_shrinks_and_harvest_grows_pool_witness :
    ((signContent ⟨"key", true⟩ ["n1", "n2"] "payload").1.2).length + 1 =
      (["n1", "n2"] : List String).length
    ∧ ((getNonceFromResponse ["n1"]
          ⟨429, [("Replay-Nonce", ["n3"])]⟩).2).length = (["n1"] : List String).length + 1
    ∧ (getNonceFromResponse ["n1"] ⟨200, []⟩).2 = ["n1"] := by
  refine ⟨?_, ?_, ?_⟩
  · exact (sign_shrinks_and_harvest_grows_pool ⟨"key", true⟩ ["n1", "n2"] "payload"
      ⟨429, [("Replay-Nonce", ["n3"])]⟩).1 "RS256[key,n2](payload)" rfl
  · exact (sign_shrinks_and_harvest_grows_pool ⟨"key", true⟩ ["n1"] "payload"
      ⟨429, [("Replay-Nonce", ["n3"])]⟩).2.1 (by decide)
  · exact (sign_shrinks_and_harvest_grows_pool ⟨"key", true⟩ ["n1"] "payload"
      ⟨200, []⟩).2.2 (by decide)

/-- C9: drawing a nonce removes and returns exactly the most recently
appended nonce (LIFO), and drawing from the empty pool returns an error
while leaving the pool unchanged. -/
theorem nonce_draw_lifo_and_empty_error (ns : List String) (x : String) :
    Nonce (ns ++ [x]) = (.ok x, ns)
    ∧ Nonce ([] : List String) = (.error "No nonce available.", []) := by
  constructor
  · simp [Nonce, List.getLast?_concat, List.dropLast_concat]
  · rfl

/-! ## Theorems: key validation timing -/

/-- C7: the account-key validity check happens exactly once, at client
construction, before any network request (the construction trace is exactly
one validation event and contains no network event); an invalid key
surfaces a fatal error at construction; `signContent` never re-validates:
its trace contains no validation event and its outcome is independent of
the key's validity flag. -/
theorem key_validated_once_at_construction (caURL : String) (usr : AccountKey) :
    (NewClient caURL usr).2 = [ClientEvent.validateKey]
    ∧ (∀ u, ClientEvent.networkRequest u ∉ (NewClient caURL usr).2)
    ∧ ((∃ e, (NewClient caURL usr).1 = .error e) ↔ usr.valid = false)
    ∧ (∀ m v v' nonces content,
        signContent ⟨m, v⟩ nonces content = signContent ⟨m, v'⟩ nonces content)
    ∧ (∀ k nonces content,
        ClientEvent.validateKey ∉ (signContent k nonces content).2) := by
  refine ⟨?_, ?_, ?_, ?_, ?_⟩
  · cases h : usr.valid <;> simp [NewClient, h]
  · intro u
    cases h : usr.valid <;> simp [NewClient, h]
  · cases h : usr.valid <;> simp [NewClient, h]
  · intro m v v' nonces content
    unfold signContent
    cases hn : Nonce nonces with
    | mk r ns => cases r <;> rfl
  · intro k nonces content
    unfold signContent
    cases hn : Nonce nonces with
    | mk r ns => cases r <;> simp

/-! ## Theorems: link header parsing -/

theorem splitOnChar_ne_nil (sep : Char) (s : List Char) : splitOnChar sep s ≠ [] := by
  induction s with
  | nil => simp [splitOnChar]
  | cons c rest ih =>
      rw [splitOnChar]
      by_cases h : c = sep
      · simp [h]
      · simp only [if_neg h]
        cases hr : splitOnChar sep rest with
        | nil => exact absurd hr ih
        | cons a t => simp

theorem one_lt_length_splitOnChar_iff (sep : Char) (s : List Char) :
    1 < (splitOnChar sep s).length ↔ sep ∈ s := by
  induction s with
  | nil => simp [splitOnChar]
  | cons c rest ih =>
      rw [splitOnChar]
      by_cases h : c = sep
      · subst h
        have hne := splitOnChar_ne_nil c rest
        cases hr : splitOnChar c rest with
        | nil => exact absurd hr hne
        | cons a t => simp
      · simp only [if_neg h]
        cases hr : splitOnChar sep rest with
        | nil => exact absurd hr (splitOnChar_ne_nil sep rest)
        | cons a t =>
            rw [hr] at ih
            simp only [List.length_cons, List.mem_cons] at *
            constructor
            · intro hl
              exact Or.inr (ih.1 hl)
            · intro hm
              rcases hm with hm | hm
              · exact absurd hm.symm h
              · exact ih.2 hm

theorem parseEntryParts_eq_none_iff (parts : List (List Char)) :
    parseEntryParts parts = none ↔ parts.length ≤ 1 := by
  unfold parseEntryParts
  split
  · next hg => simpa using List.getElem?_eq_none_iff.1 hg
  · next p1 hg =>
      obtain ⟨hlt, _⟩ := List.getElem?_eq_some.1 hg
      have hnle : ¬ parts.length ≤ 1 := by omega
      split
      · exact ⟨fun h => Option.noConfusion h, fun h => absurd h hnle⟩
      · exact ⟨fun h => Option.noConfusion h, fun h => absurd h hnle⟩

theorem parseLinkEntry_eq_none_iff (link : String) :
    parseLinkEntry link = none ↔ ';' ∉ link.data := by
  unfold parseLinkEntry
  rw [parseEntryParts_eq_none_iff]
  have h1 := one_lt_length_splitOnChar_iff ';' (link.data.filter (fun c => c != '<' && c != '>'))
  have hmem : (';' ∈ link.data.filter (fun c => c != '<' && c != '>')) ↔
      ';' ∈ link.data := by
    simp [List.mem_filter]
  rw [hmem] at h1
  constructor
  · intro hle hin
    have := h1.2 hin
    omega
  · intro hnin
    by_contra hgt
    exact hnin (h1.1 (by omega))

theorem parseLinksGo_isSome (links : List String) : ∀ m,
    (parseLinksGo m links).isSome = true ↔ ∀ l ∈ links, ';' ∈ l.data := by
  induction links with
  | nil => intro m; simp [parseLinksGo]
  | cons link rest ih =>
      intro m
      by_cases h : ';' ∈ link.data
      · have hne : parseLinkEntry link ≠ none := by
          rw [Ne, parseLinkEntry_eq_none_iff]; simpa using h
        cases he : parseLinkEntry link with
        | none => exact absurd he hne
        | some o =>
            cases o with
            | none => simp [parseLinksGo, he, ih, h]
            | some p =>
                cases p with
                | mk rel url => simp [parseLinksGo, he, ih, h]
      · have he : parseLinkEntry link = none := (parseLinkEntry_eq_none_iff link).2 h
        rw [parseLinksGo, he]
        simp only [Option.isSome_none, Bool.false_eq_true, false_iff]
        intro hall
        exact h (hall link (List.mem_cons_self link rest))

/-- C8: the access to the second `;`-segment of a Link header entry is in
bounds for every entry exactly when every entry contains at least one `;`;
an entry with no `;` is the only way for the embedding's
`Option`-returning indexing to yield `none` (the Go `parts[1]` panic). -/
theorem parseLinks_second_segment_in_bounds (links : List String) :
    (parseLinks links).isSome = true ↔ ∀ l ∈ links, ';' ∈ l.data := by
  unfold parseLinks
  exact parseLinksGo_isSome links []

theorem parseLinksGo_append (links : List String) : ∀ m m' entry,
    parseLinksGo m links = some m' →
    parseLinksGo m (links ++ [entry]) = parseLinksGo m' [entry] := by
  induction links with
  | nil =>
      intro m m' entry hm
      simp only [parseLinksGo] at hm
      cases hm
      simp
  | cons link rest ih =>
      intro m m' entry hm
      rw [parseLinksGo] at hm
      rw [List.cons_append, parseLinksGo]
      cases he : parseLinkEntry link with
      | none => rw [he] at hm; cases hm
      | some o =>
          rw [he] at hm
          cases o with
          | none => exact ih m m' entry hm
          | some p =>
              cases p with
              | mk rel url => exact ih (mapInsert m rel url) m' entry hm

theorem find?_map_replace (m : List (String × String)) (k v : String)
    (hany : m.any (fun p => p.1 == k) = true) :
    (m.map (fun p => if p.1 == k then (k, v) else p)).find? (fun p => p.1 == k) =
      some (k, v) := by
  induction m with
  | nil => simp at hany
  | cons a m' ih =>
      by_cases h : a.1 = k
      · have hhead : (if a.1 == k then (k, v) else a) = (k, v) := by simp [h]
        simp only [List.map_cons, hhead]
        exact List.find?_cons_of_pos _ (by simp)
      · have hhead : (if a.1 == k then (k, v) else a) = a := by simp [h]
        have hany' : m'.any (fun p => p.1 == k) = true := by
          rcases List.any_eq_true.1 hany with ⟨p, hp, hpk⟩
          rcases List.mem_cons.1 hp with rfl | hp'
          · exact absurd (by simpa using hpk) h
          · exact List.any_eq_true.2 ⟨p, hp', hpk⟩
        simp only [List.map_cons, hhead]
        rw [List.find?_cons_of_neg _ (by simpa using h)]
        exact ih hany'

theorem mapGet_mapInsert_self (m : List (String × String)) (k v : String) :
    mapGet (mapInsert m k v) k = v := by
  unfold mapInsert
  by_cases hany : m.any (fun p => p.1 == k) = true
  · rw [if_pos hany]
    unfold mapGet
    rw [find?_map_replace m k v hany]
  · rw [if_neg hany]
    unfold mapGet
    have hnone : m.find? (fun p => p.1 == k) = none := by
      rw [List.find?_eq_none]
      intro p hp hpk
      exact hany (List.any_eq_true.2 ⟨p, hp, hpk⟩)
    rw [List.find?_append, hnone]
    simp [List.find?]

/-- C4 counterexample: a single Link header value carrying two
comma-separated relation entries, `<url1>;rel="a"` and `<url2>;rel="b"`, is
not split on the comma — the resulting map records only the first entry and
has no binding at all for relation `b` (its read yields the zero value). -/
theorem parseLinks_drops_comma_separated_entry :
    parseLinks ["<url1>;rel=\"a\", <url2>;rel=\"b\""] = some [("a", "url1")]
    ∧ mapGet [("a", "url1")] "b" = "" := by
  constructor
  · decide
  · decide

/-- C4 (amended): `parseLinks` handles one relation entry per header value
(each element of the Go header-value slice), binding the extracted relation
name to the segment before the first `;`; for duplicate relation names
across header values the last value's URL wins; comma-separated extra
entries inside a single header value are not split out. -/
theorem parseLinks_last_entry_wins (links : List String) (entry : String)
    (m : List (String × String)) (rel url : String)
    (hm : parseLinks links = some m)
    (he : parseLinkEntry entry = some (some (rel, url))) :
    parseLinks (links ++ [entry]) = some (mapInsert m rel url)
    ∧ mapGet (mapInsert m rel url) rel = url := by
  constructor
  · unfold parseLinks at hm ⊢
    rw [parseLinksGo_append links [] m entry hm]
    rw [parseLinksGo, he]
    rfl
  · exact mapGet_mapInsert_self m rel url

/-- Witness for `parseLinks_last_entry_wins`: two header values binding the
same relation name `r`; the later one's URL is the one recorded. -/
theorem parseLinks_last_entry_wins_witness :
    parseLinks (["<u1>;rel=\"r\""] ++ ["<u2>;rel=\"r\""]) =
      some (mapInsert [("r", "u1")] "r" "u2")
    ∧ mapGet (mapInsert [("r", "u1")] "r" "u2") "r" = "u2" :=
  parseLinks_last_entry_wins ["<u1>;rel=\"r\""] "<u2>;rel=\"r\"" [("r", "u1")] "r" "u2"
    (by decide) (by decide)

/-! ## Theorems: registration -/

/-- C10: a registration answered with HTTP 409 Conflict yields an error and
no registration resource — never an idempotent success with the existing
account. -/
theorem register_conflict_is_error (resp : Response)
    (decoded : Except String Registration) (h : resp.statusCode = 409) :
    Register (.ok resp) decoded =
      some (.error "This account is already registered with this CA.") := by
  simp [Register, h]

/-- Witness for `register_conflict_is_error` at a concrete 409 response. -/
theorem register_conflict_is_error_witness :
    Register (.ok ⟨409, []⟩) (.ok { agreement := "" }) =
      some (.error "This account is already registered with this CA.") :=
  register_conflict_is_error ⟨409, []⟩ (.ok { agreement := "" }) rfl

/-! ## Theorems: challenge selection -/

/-- C1: evaluation of `chooseSolvers` at the failing input.  With challenges
of types `simpleHttp`, `dvsni`, `dns-01` and the single combination `[2]`,
a solver registered only for `simpleHttp` — the type of challenge 0, not of
the combination's listed challenge 2 — is accepted with a full solver map:
the source reads `auth.Challenges[i]` at the loop position `i`, not at the
listed index `combination[i]`.  The claim requires failure here, since the
only challenge the combination names (index 2, type `dns-01`) has no
registered solver.  The claim's own `[[0],[1,2]]` example does fail under
the code as well, since challenges 0 and 1 are uncovered either way. -/
theorem chooseSolvers_uses_position_not_listed_index :
    chooseSolvers httpOnlySolvers (threeChallengeAuth [[2]]) =
      some (some [(0, "http01")])
    ∧ (threeChallengeAuth [[2]]).challenges[2]? = some ⟨"dns-01"⟩
    ∧ httpOnlySolvers "dns-01" = none
    ∧ chooseSolvers dnsOnlySolvers (threeChallengeAuth [[0], [1, 2]]) = some none := by
  refine ⟨by decide, by decide, by decide, by decide⟩

/-! ## Theorems: certificate obtention -/

theorem mem_collectMsgs (r : AuthorizationResource) (l : List Msg)
    (h : Msg.res r ∈ l) : r ∈ collectMsgs l := by
  induction l with
  | nil => cases h
  | cons m rest ih =>
      cases m with
      | err e =>
          rw [collectMsgs]
          rcases List.mem_cons.1 h with hm | hm
          · cases hm
          · exact ih hm
      | res r2 =>
          rcases List.mem_cons.1 h with hm | hm
          · injection hm with h2
            subst h2
            exact List.mem_cons_self _ _
          · exact List.mem_cons_of_mem _ (ih hm)

/-- C3 (amended): per-identifier work is independent and results are
collected only after all per-domain tasks have fed the fan-in: in every run
the fan-in survives (each task sends exactly one message — the normal
transport-failure and success paths — and none is process-fatal), every
resource any domain's task produces appears in the collected result,
regardless of the other domains' failures; but failures are not
aggregated: per-identifier errors are only logged and dropped, and
`ObtainCertificates` never returns an error when the process survives, so
no aggregate error ever names the failed domains. -/
theorem getChallenges_independent_and_errors_dropped
    (registered : Solvers) (post : String → Except String Response)
    (decode : String → Except String Authorization) (domains : List String)
    (d : String) (r : AuthorizationResource) (rs : List AuthorizationResource)
    (hmem : d ∈ domains)
    (hres : Msg.res r ∈ (getChallengesTask post decode d).msgs)
    (hall : getChallenges post decode domains = some rs) :
    r ∈ rs
    ∧ ∀ e, ObtainCertificates registered post decode domains ≠ some (.error e) := by
  constructor
  · unfold getChallenges at hall
    by_cases hc : (∀ t ∈ taskRuns post decode domains, t.fatal = none) ∧
        ((taskRuns post decode domains).map (fun t => t.msgs.length)).sum =
          domains.length
    · rw [if_pos hc] at hall
      injection hall with h2
      subst h2
      apply mem_collectMsgs
      refine List.mem_flatMap.2 ⟨getChallengesTask post decode d, ?_, hres⟩
      exact List.mem_map_of_mem _ hmem
    · rw [if_neg hc] at hall
      cases hall
  · intro e
    unfold ObtainCertificates
    split
    · simp
    · split
      · simp
      · simp

/-- Witness for `getChallenges_independent_and_errors_dropped`: in the
two-domain run where `b.example.com` fails at the transport,
`a.example.com`'s resource is still collected and the run reports no
error. -/
theorem getChallenges_independent_and_errors_dropped_witness :
    aResource ∈ [aResource]
    ∧ ∀ e, ObtainCertificates httpOnlySolvers abPost abDecode
        ["a.example.com", "b.example.com"] ≠ some (.error e) :=
  getChallenges_independent_and_errors_dropped httpOnlySolvers abPost abDecode
    ["a.example.com", "b.example.com"] "a.example.com" aResource
    [aResource] (by decide) (by decide) rfl

/-- C3 counterexample: with `b.example.com`'s authorization fetch failing at
the transport and `a.example.com` succeeding, the whole run returns `nil`
error and the collected results silently omit the failed domain — no
aggregate error enumerates `b.example.com` or its cause. -/
theorem obtainCertificates_no_aggregate_error :
    ObtainCertificates httpOnlySolvers abPost abDecode
        ["a.example.com", "b.example.com"] = some (.ok ())
    ∧ getChallenges abPost abDecode ["a.example.com", "b.example.com"] =
        some [aResource]
    ∧ abPost "b.example.com" = .error "connection refused" := by
  exact ⟨rfl, rfl, rfl⟩

/-! ## Theorems: order service -/

/-- C5 counterexample: duplicated, mixed-case input domains are posted
verbatim — the order built for
`["A.example.com", "a.example.com", "A.example.com"]` carries three
identifiers with case preserved, refuting deduplication and
case-normalization. -/
theorem newOrder_posts_duplicates_verbatim :
    OrderService.New
        (fun req => .ok (⟨201, [("Location", ["https://ca/order/1"])]⟩, req))
        ["A.example.com", "a.example.com", "A.example.com"] =
      .ok { order := { identifiers :=
              [⟨"dns", "A.example.com"⟩, ⟨"dns", "a.example.com"⟩,
                ⟨"dns", "A.example.com"⟩] },
            location := "https://ca/order/1" } := rfl

/-- C5 (amended): `New` builds one `dns` identifier per input domain,
verbatim and in input order (no deduplication, no case normalization),
posts the order, and returns the decoded order with its resource URL taken
from the response's `Location` header. -/
theorem newOrder_identifiers_verbatim_and_location
    (post : Order → Except String (Response × Order)) (domains : List String)
    (resp : Response) (order : Order)
    (h : post (newOrderRequest domains) = .ok (resp, order)) :
    (newOrderRequest domains).identifiers =
      domains.map (fun domain => ⟨"dns", domain⟩)
    ∧ OrderService.New post domains =
      .ok { order := order, location := headerGet resp.headers "Location" } := by
  constructor
  · rfl
  · unfold OrderService.New
    rw [h]

/-- Witness for `newOrder_identifiers_verbatim_and_location` at a one-domain
input. -/
theorem newOrder_identifiers_verbatim_and_location_witness :
    (newOrderRequest ["x.org"]).identifiers =
      (["x.org"] : List String).map (fun domain => ⟨"dns", domain⟩)
    ∧ OrderService.New
        (fun _ => .ok (⟨201, [("Location", ["L1"])]⟩, { status := "pending" }))
        ["x.org"] =
      .ok { order := { status := "pending" },
            location := headerGet [("Location", ["L1"])] "Location" } :=
  newOrder_identifiers_verbatim_and_location
    (fun _ => .ok (⟨201, [("Location", ["L1"])]⟩, { status := "pending" }))
    ["x.org"] ⟨201, [("Location", ["L1"])]⟩ { status := "pending" } rfl

/-- RFC 4648 test vectors pinning the unpadded URL-safe base64 encoding. -/
theorem base64RawURL_test_vectors :
    String.mk (base64RawURL [77, 97, 110]) = "TWFu"
    ∧ String.mk (base64RawURL [77, 97]) = "TWE"
    ∧ String.mk (base64RawURL [77]) = "TQ" :=
  ⟨rfl, rfl, rfl⟩

/-- C6 counterexample: a finalize whose response order has status
`processing` is returned as a success carrying that very status —
`UpdateForCSR` posts once and does not poll until the status is `valid` or
`invalid`. -/
theorem updateForCSR_returns_without_polling :
    OrderService.UpdateForCSR (fun _ _ => .ok { status := "processing" })
        "https://ca/order/1/finalize" [77, 97, 110] =
      .ok { order := { status := "processing" } }
    ∧ ("processing" : String) ≠ "valid"
    ∧ ("processing" : String) ≠ "invalid" := by
  refine ⟨rfl, by decide, by decide⟩

/-- C6 (amended): `UpdateForCSR` posts the base64url-encoded CSR to the
order URL exactly once, without polling; when the returned order's status
is `invalid` it surfaces the server problem (`order.Error`) as the error
and returns no order value; any other returned status is passed through as
a success. -/
theorem updateForCSR_invalid_yields_problem
    (post : String → CSRMessage → Except String Order) (orderURL : String)
    (csr : List Nat) (order : Order)
    (h : post orderURL { csr := String.mk (base64RawURL csr) } = .ok order) :
    (order.status = "invalid" →
      OrderService.UpdateForCSR post orderURL csr = .error (.problem order.error))
    ∧ (order.status ≠ "invalid" →
      OrderService.UpdateForCSR post orderURL csr = .ok { order := order }) := by
  have base : OrderService.UpdateForCSR post orderURL csr =
      if order.status = "invalid" then .error (.problem order.error)
      else .ok { order := order } := by
    unfold OrderService.UpdateForCSR
    rw [h]
  constructor
  · intro hs; rw [base, if_pos hs]
  · intro hs; rw [base, if_neg hs]

/-- Witness for `updateForCSR_invalid_yields_problem`: an `invalid` order
surfaces the server problem; a `valid` order is returned as-is. -/
theorem updateForCSR_invalid_yields_problem_witness :
    OrderService.UpdateForCSR
        (fun _ _ => .ok { status := "invalid", error := some "CSR rejected" })
        "https://ca/order/1/finalize" [77] =
      .error (.problem (some "CSR rejected"))
    ∧ OrderService.UpdateForCSR (fun _ _ => .ok { status := "valid" })
        "https://ca/order/1/finalize" [77] =
      .ok { order := { status := "valid" } } :=
  ⟨(updateForCSR_invalid_yields_problem
      (fun _ _ => .ok { status := "invalid", error := some "CSR rejected" })
      "https://ca/order/1/finalize" [77]
      { status := "invalid", error := some "CSR rejected" } rfl).1 rfl,
   (updateForCSR_invalid_yields_problem
      (fun _ _ => .ok { status := "valid" })
      "https://ca/order/1/finalize" [77] { status := "valid" } rfl).2 (by decide)⟩

end Acme
